import Mathlib

/-!
# Configuration observer of the OpenShift API server operator

A shallow embedding of `pkg/operator/observe_config.go`: the three observers
(`observeKubeAPIServerPublicInfo`, `observeEtcdEndpoints`,
`observeInternalRegistryHostname`), the reconciliation pass `sync`, the worker step
`processNextWorkItem` and the namespace-filtered event handler.

Conventions of the embedding.

* A Go `map[string]interface{}` is an association list without repeated keys
  (`Doc`); `m[k]` is `getField`, `m[k] = v` is `setField`.  The in-place mutation of
  the Go map becomes a functional update: "the returned document" is the value the
  map holds when the function returns.
* A Go result pair `(obj, err)` of a lister or of the generated client is an
  `Except Err _`: these collaborators return either the object or the error.
* Calls on collaborators (client, queue, rate limiter, error sink) are recorded in a
  trace of `Event`s, in program order.
-/

namespace Operator

/-! ## Errors -/

/-- An API error.  `notFound` is an error whose status reason is `NotFound`, which is
what `errors.IsNotFound` tests; `other` is any other error. -/
inductive Err where
  | notFound (msg : String)
  | other (msg : String)
  deriving DecidableEq, Repr

/-- The test `errors.IsNotFound(err)` on a non-nil error. -/
def Err.IsNotFound : Err → Bool
  | .notFound _ => true
  | .other _ => false

/-- The text `err.Error()`. -/
def Err.Error : Err → String
  | .notFound msg => msg
  | .other msg => msg

/-! ## The derived document -/

/-- The other scalars a decoded JSON document can hold: null (the nil interface), a
boolean, or a number, a `float64` taken as the rational it denotes. -/
inductive Scalar where
  | null
  | bool (b : Bool)
  | number (q : ℚ)
  deriving DecidableEq, Repr

/-- A value of the untyped document, an `interface{}`: a string, another scalar, a
`[]interface{}` or a nested `map[string]interface{}`. -/
inductive Value where
  | str (s : String)
  | scalar (j : Scalar)
  | slice (xs : List Value)
  | map (kvs : List (String × Value))
  deriving Repr

/-- The type `map[string]interface{}`. -/
abbrev Doc := List (String × Value)

/-- The read `val, ok := m[field]`. -/
def getField (field : String) : Doc → Option Value
  | [] => none
  | (k, v) :: rest => if k = field then some v else getField field rest

/-- The assignment `m[field] = value`: replaces the value of an existing key, adds the
key otherwise. -/
def setField (field : String) (value : Value) : Doc → Doc
  | [] => [(field, value)]
  | (k, v) :: rest =>
    if k = field then (k, value) :: rest else (k, v) :: setField field value rest

/-- The keys of a map. -/
def keysOf (m : Doc) : List String := m.map Prod.fst

mutual
/-- No mapping of the value, at any depth, repeats a key: the list stands for a Go
value. -/
def Value.wellFormed : Value → Bool
  | .str _ => true
  | .scalar _ => true
  | .slice xs => allWellFormed xs
  | .map kvs => decide (keysOf kvs).Nodup && fieldsWellFormed kvs
/-- Every element of a sequence is well formed. -/
def allWellFormed : List Value → Bool
  | [] => true
  | x :: xs => Value.wellFormed x && allWellFormed xs
/-- Every value of a mapping is well formed. -/
def fieldsWellFormed : List (String × Value) → Bool
  | [] => true
  | (_, v) :: rest => Value.wellFormed v && fieldsWellFormed rest
end

/-- A document without repeated keys, at any depth. -/
def Doc.wellFormed (d : Doc) : Bool := Value.wellFormed (.map d)

/-- The value found by following `path` through nested mappings, if every step exists
(`unstructured.NestedFieldNoCopy`). -/
def Value.getPath : Value → List String → Option Value
  | v, [] => some v
  | .map kvs, k :: ks =>
    match getField k kvs with
    | some v => Value.getPath v ks
    | none => none
  | _, _ :: _ => none

/-- The field of a document at `path`. -/
def nestedField (obj : Doc) (path : List String) : Option Value :=
  Value.getPath (.map obj) path

/-- Library function `unstructured.setNestedFieldNoCopy(obj, value, fields...)` of
k8s.io/apimachinery, with `fields = parents ++ [leaf]`: walks the parents, creating
an empty mapping for an absent key, and fails (before any assignment) when a parent
holds a value that is not a mapping; then assigns the leaf.  The result is the map
after the call, or the error. -/
def setNestedFieldNoCopy (value : Value) (leaf : String) : List String → Doc → Except String Doc
  | [], m => .ok (setField leaf value m)
  | field :: rest, m =>
    match getField field m with
    | some (.map valMap) =>
      match setNestedFieldNoCopy value leaf rest valMap with
      | .ok valMap' => .ok (setField field (.map valMap') m)
      | .error e => .error e
    | some _ => .error ("value cannot be set because " ++ field ++ " is not a map[string]interface\x7b\x7d")
    | none =>
      match setNestedFieldNoCopy value leaf rest [] with
      | .ok newVal => .ok (setField field (.map newVal) m)
      | .error e => .error e

/-- Library function `unstructured.SetNestedField`: the deep copy of a string is the
string. -/
def SetNestedField (obj : Doc) (value : Value) (parents : List String) (leaf : String) :
    Except String Doc :=
  setNestedFieldNoCopy value leaf parents obj

/-- Library function `unstructured.SetNestedStringSlice`: converts the `[]string` into
a `[]interface{}` and sets it. -/
def SetNestedStringSlice (obj : Doc) (value : List String) (parents : List String)
    (leaf : String) : Except String Doc :=
  setNestedFieldNoCopy (.slice (value.map Value.str)) leaf parents obj

/-- The map `obj` after a call statement whose returned error is dropped: the updated
map when the call succeeded, the untouched map when it failed. -/
def afterCall (obj : Doc) : Except String Doc → Doc
  | .ok obj' => obj'
  | .error _ => obj

mutual
/-- Library function `reflect.DeepEqual` on document values of the same dynamic type:
strings and other scalars by `==`, slices by length and pointwise, maps by length and
key-wise lookup; values of different dynamic types are not equal. -/
def Value.deepEqual : Value → Value → Bool
  | .str a, .str b => a == b
  | .scalar a, .scalar b => a == b
  | .slice a, .slice b => deepEqualSlice a b
  | .map a, .map b => a.length == b.length && deepEqualKeys a b
  | _, _ => false
/-- The slice case of `reflect.DeepEqual`. -/
def deepEqualSlice : List Value → List Value → Bool
  | [], [] => true
  | x :: xs, y :: ys => Value.deepEqual x y && deepEqualSlice xs ys
  | _, _ => false
/-- The map loop of `reflect.DeepEqual`: every key of the first map is a key of the
second with a deeply equal value. -/
def deepEqualKeys : List (String × Value) → Doc → Bool
  | [], _ => true
  | (k, v) :: rest, b =>
    (match getField k b with
     | some w => Value.deepEqual v w
     | none => false) && deepEqualKeys rest b
end

/-- The call `reflect.DeepEqual(currentConfig, observedConfig)` of `sync`.  The first
map is `none` when it is nil; the second never is, and a nil map is not deeply equal to
a non-nil one. -/
def DeepEqual (currentConfig : Option Doc) (observedConfig : Doc) : Bool :=
  match currentConfig with
  | none => false
  | some current => Value.deepEqual (.map current) (.map observedConfig)

mutual
/-- Structural equality of two document values in the words of the specification:
equal scalars; sequences of the same length equal element by element, in order;
mappings with the same key set whose values under each key are structurally equal. -/
def Value.StructEq : Value → Value → Prop
  | .str a, .str b => a = b
  | .scalar a, .scalar b => a = b
  | .slice a, .slice b => StructEqSeq a b
  | .map a, .map b => (∀ k, k ∈ keysOf b → k ∈ keysOf a) ∧ StructEqFields a b
  | _, _ => False
/-- Sequences structurally equal in order. -/
def StructEqSeq : List Value → List Value → Prop
  | [], [] => True
  | x :: xs, y :: ys => Value.StructEq x y ∧ StructEqSeq xs ys
  | _, _ => False
/-- Every key of the first mapping is a key of the second, with a structurally equal
value. -/
def StructEqFields : List (String × Value) → Doc → Prop
  | [], _ => True
  | (k, v) :: rest, b =>
    (∃ w, getField k b = some w ∧ Value.StructEq v w) ∧ StructEqFields rest b
end

/-! ## The watched resources and their listers -/

/-- A `corev1.ConfigMap`, with the field the observers read. -/
structure ConfigMap where
  Data : List (String × String)
  deriving Repr

/-- A `corev1.EndpointAddress`. -/
structure EndpointAddress where
  Hostname : String
  deriving Repr

/-- A `corev1.EndpointSubset`. -/
structure EndpointSubset where
  Addresses : List EndpointAddress
  deriving Repr

/-- A `corev1.Endpoints`. -/
structure Endpoints where
  Annotations : List (String × String)
  Subsets : List EndpointSubset
  deriving Repr

/-- The status of a `configv1.Image`. -/
structure ImageStatus where
  InternalRegistryHostname : String
  deriving Repr

/-- A `configv1.Image`. -/
structure Image where
  Status : ImageStatus
  deriving Repr

/-- The read `m[key]` of a `map[string]string` without the `ok` flag: the empty
string when the key is absent. -/
def stringMapIndex (m : List (String × String)) (key : String) : String :=
  (m.lookup key).getD ""

/-- The struct `Listers`: the cache state the observers read.  `endpointLister ns name`
is `endpointLister.Endpoints(ns).Get(name)`, and so on. -/
structure Listers where
  imageConfigLister : String → Except Err Image
  endpointLister : String → String → Except Err Endpoints
  configmapLister : String → String → Except Err ConfigMap

/-- The package constants the file uses and another file of the package declares. -/
structure Names where
  kubeAPIServerNamespaceName : String
  etcdNamespaceName : String
  targetNamespaceName : String
  workQueueKey : String
  deriving Repr

/-- The type `observeConfigFunc`. -/
abbrev observeConfigFunc := Listers → Doc → Except Err Doc

/-! ## The observers -/

/-- The function `observeKubeAPIServerPublicInfo`. -/
def observeKubeAPIServerPublicInfo (n : Names) (listers : Listers) (observedConfig : Doc) :
    Except Err Doc :=
  match listers.configmapLister n.kubeAPIServerNamespaceName "public-info" with
  | .error err =>
    if !err.IsNotFound then .error err
    else .ok observedConfig
  | .ok kubeAPIServerPublicInfo =>
    match kubeAPIServerPublicInfo.Data.lookup "projectConfig.defaultNodeSelector" with
    | some val =>
      .ok (afterCall observedConfig
        (SetNestedField observedConfig (.str val) ["projectConfig"] "defaultNodeSelector"))
    | none => .ok observedConfig

/-- The URL that `observeEtcdEndpoints` builds for one address. -/
def etcdURL (etcdEndpoints : Endpoints) (address : EndpointAddress) : String :=
  "https://" ++ address.Hostname ++ "." ++
    stringMapIndex etcdEndpoints.Annotations "alpha.installer.openshift.io/dns-suffix" ++ ":2379"

/-- The two nested loops of `observeEtcdEndpoints`, appending to `etcdURLs`. -/
def etcdURLsOf (etcdEndpoints : Endpoints) (etcdURLs : List String) : List String :=
  etcdEndpoints.Subsets.foldl
    (fun urls subset => subset.Addresses.foldl
      (fun urls address => urls ++ [etcdURL etcdEndpoints address]) urls)
    etcdURLs

/-- The end of `observeEtcdEndpoints`: the call of the setter under the guard
`len(etcdURLs) > 0`, its error dropped; the result is the map after it. -/
def setEtcdURLs (observedConfig : Doc) (etcdURLs : List String) : Doc :=
  if etcdURLs.length > 0 then
    afterCall observedConfig
      (SetNestedStringSlice observedConfig etcdURLs ["storageConfig"] "urls")
  else observedConfig

/-- The function `observeEtcdEndpoints`.  After a not-found error `etcdEndpoints` is
nil and the loops are skipped. -/
def observeEtcdEndpoints (n : Names) (listers : Listers) (observedConfig : Doc) :
    Except Err Doc :=
  let etcdURLs : List String := []
  match listers.endpointLister n.etcdNamespaceName "etcd" with
  | .error err =>
    if !err.IsNotFound then .error err
    else .ok (setEtcdURLs observedConfig etcdURLs)
  | .ok etcdEndpoints =>
    .ok (setEtcdURLs observedConfig (etcdURLsOf etcdEndpoints etcdURLs))

/-- The function `observeInternalRegistryHostname`. -/
def observeInternalRegistryHostname (listers : Listers) (observedConfig : Doc) :
    Except Err Doc :=
  match listers.imageConfigLister "cluster" with
  | .error err =>
    if err.IsNotFound then .ok observedConfig
    else .error err
  | .ok configImage =>
    let internalRegistryHostName := configImage.Status.InternalRegistryHostname
    if internalRegistryHostName.length > 0 then
      .ok (afterCall observedConfig
        (SetNestedField observedConfig (.str internalRegistryHostName)
          ["imagePolicyConfig"] "internalRegistryHostname"))
    else .ok observedConfig

/-- The frame of an observer that owns the path `own`, relating the input document to
the returned one: every path that is neither a prefix nor an extension of `own` holds
the same value (or is absent) in both; a proper prefix of `own` that holds a
non-mapping value in the input is not overwritten, the document being returned as it
was; and a proper prefix of `own` that holds a mapping still holds a mapping. -/
def keepsOtherFields (own : List String) (input returned : Doc) : Prop :=
  (∀ p, ¬ p <+: own → ¬ own <+: p → nestedField returned p = nestedField input p) ∧
  (∀ p v, p <+: own → p ≠ own → nestedField input p = some v →
    (∀ kvs, v ≠ .map kvs) → returned = input) ∧
  (∀ p kvs, p <+: own → p ≠ own → nestedField input p = some (.map kvs) →
    ∃ kvs', nestedField returned p = some (.map kvs'))

/-! ## The persisted configuration object and its client -/

/-- A `runtime.RawExtension`: the serialized bytes (`Raw`, nil when absent) and the
in-memory object.  The type `ρ` stands for serialized JSON. -/
structure RawExtension (ρ : Type) where
  Raw : Option ρ
  Object : Option Doc

/-- The persisted `OpenShiftAPIServerOperatorConfig`: the observed config of its spec,
and the version token standing for the state the reconciler does not touch. -/
structure OperatorConfig (ρ : Type) where
  ResourceVersion : Nat
  ObservedConfig : RawExtension ρ

/-- The generated client `OpenShiftAPIServerOperatorConfigs()`, a collaborator: `Get`
and `Update` as transitions of the remote state `σ`. -/
structure OperatorConfigClient (ρ σ : Type) where
  Get : String → σ → Except Err (OperatorConfig ρ) × σ
  Update : OperatorConfig ρ → σ → Except Err (OperatorConfig ρ) × σ

/-- A call on a collaborator, as recorded in the trace. -/
inductive Event where
  | observerCalled (i : Nat)
  | clientGet (name : String)
  | clientUpdate (observedConfig : Option Doc)
  | queueGet
  | rateLimiterAccept
  | syncCalled
  | queueForget (item : String)
  | queueAddRateLimited (item : String)
  | queueDone (item : String)
  | queueAdd (item : String)
  | handleError (msg : String)
  deriving Repr

/-- The number of `Update` calls in a trace. -/
def updateCalls : List Event → Nat
  | [] => 0
  | .clientUpdate _ :: rest => updateCalls rest + 1
  | _ :: rest => updateCalls rest

/-- The number of `Get` calls on the client in a trace. -/
def getCalls : List Event → Nat
  | [] => 0
  | .clientGet _ :: rest => getCalls rest + 1
  | _ :: rest => getCalls rest

/-- The struct `ConfigObserver`, with the fields `sync` uses.  `jsonDecode raw` is the
map that `json.NewDecoder(bytes.NewBuffer(raw)).Decode(&currentConfig)` leaves in an
initially empty `currentConfig`, its error dropped; it is `none` when the decoder
leaves the map nil, as it does on the JSON text `null`. -/
structure ConfigObserver (ρ σ : Type) where
  operatorConfigClient : OperatorConfigClient ρ σ
  listers : Listers
  observers : List observeConfigFunc
  jsonDecode : ρ → Option Doc

/-- The observer list that `NewConfigObserver` installs. -/
def defaultObservers (n : Names) : List observeConfigFunc :=
  [observeKubeAPIServerPublicInfo n, observeEtcdEndpoints n, observeInternalRegistryHostname]

/-- The constructor `NewConfigObserver`, with the fields `sync` uses. -/
def NewConfigObserver {ρ σ : Type} (n : Names) (listers : Listers)
    (operatorConfigClient : OperatorConfigClient ρ σ) (jsonDecode : ρ → Option Doc) :
    ConfigObserver ρ σ :=
  ⟨operatorConfigClient, listers, defaultObservers n, jsonDecode⟩

/-- The loop of `sync` over `c.observers`, from the observer of index `i` on: the
document or the first error, and the observers invoked. -/
def runObservers (listers : Listers) :
    List observeConfigFunc → Nat → Doc → Except Err Doc × List Event
  | [], _, observedConfig => (.ok observedConfig, [])
  | observer :: rest, i, observedConfig =>
    match observer listers observedConfig with
    | .error err => (.error err, [.observerCalled i])
    | .ok observedConfig' =>
      let r := runObservers listers rest (i + 1) observedConfig'
      (r.1, .observerCalled i :: r.2)

/-- What one call of `sync` leaves: the returned error (`none` for nil), the remote
state and the calls made. -/
structure SyncResult (σ : Type) where
  err : Option Err
  store : σ
  trace : List Event

/-- The map `currentConfig` of `sync` after decoding `Raw`: decoding nil bytes fails
and leaves the map empty. -/
def decodeCurrent {ρ : Type} (jsonDecode : ρ → Option Doc) : Option ρ → Option Doc
  | none => some []
  | some raw => jsonDecode raw

/-- The method `ConfigObserver.sync`.  The log line before the update is left out. -/
def sync {ρ σ : Type} (c : ConfigObserver ρ σ) (s : σ) : SyncResult σ :=
  match runObservers c.listers c.observers 0 [] with
  | (.error err, tr) => ⟨some err, s, tr⟩
  | (.ok observedConfig, tr) =>
    match c.operatorConfigClient.Get "instance" s with
    | (.error err, s1) => ⟨some err, s1, tr ++ [.clientGet "instance"]⟩
    | (.ok operatorConfig, s1) =>
      let currentConfig := decodeCurrent c.jsonDecode operatorConfig.ObservedConfig.Raw
      if DeepEqual currentConfig observedConfig then
        ⟨none, s1, tr ++ [.clientGet "instance"]⟩
      else
        let updated : OperatorConfig ρ :=
          ⟨operatorConfig.ResourceVersion, ⟨none, some observedConfig⟩⟩
        match c.operatorConfigClient.Update updated s1 with
        | (.error err, s2) =>
          ⟨some err, s2, tr ++ [.clientGet "instance", .clientUpdate updated.ObservedConfig.Object]⟩
        | (.ok _, s2) =>
          ⟨none, s2, tr ++ [.clientGet "instance", .clientUpdate updated.ObservedConfig.Object]⟩

/-- The outcome of a pass that aborts in the observer of index `i` with the error
`e`: the error is returned, the observers of index `0` to `i` were invoked and no
later one, and no call was made on the client, whose state is as before. -/
def abortedIn {σ : Type} (r : SyncResult σ) (s : σ) (e : Err) (i : Nat) : Prop :=
  r.err = some e ∧ r.store = s ∧
    r.trace = (List.range (i + 1)).map Event.observerCalled ∧
    getCalls r.trace = 0 ∧ updateCalls r.trace = 0

/-- A lookup that does not fail, or fails with a not-found error. -/
def notFoundAtWorst {α : Type} (lookup : Except Err α) : Prop :=
  ∀ e, lookup = .error e → e.IsNotFound = true

/-- What one call of `processNextWorkItem` leaves. -/
structure WorkResult (σ : Type) where
  ret : Bool
  store : σ
  trace : List Event

/-- The method `ConfigObserver.processNextWorkItem`; `dequeued` is the pair
`(dsKey, quit)` that `c.queue.Get()` returns.  The deferred `Done` runs last. -/
def processNextWorkItem {ρ σ : Type} (c : ConfigObserver ρ σ) (dequeued : String × Bool)
    (s : σ) : WorkResult σ :=
  let dsKey := dequeued.1
  let quit := dequeued.2
  if quit then ⟨false, s, [.queueGet]⟩
  else
    let r := sync c s
    match r.err with
    | none =>
      ⟨true, r.store,
        [.queueGet, .rateLimiterAccept, .syncCalled] ++ r.trace ++
          [.queueForget dsKey] ++ [.queueDone dsKey]⟩
    | some err =>
      ⟨true, r.store,
        [.queueGet, .rateLimiterAccept, .syncCalled] ++ r.trace ++
          [.handleError (dsKey ++ " failed with : " ++ err.Error),
            .queueAddRateLimited dsKey] ++ [.queueDone dsKey]⟩

/-- The worker's own calls in a trace (queue, rate limiter, error sink and the
invocation of `sync`), in order: the calls that `sync` makes are left out. -/
def workerCalls : List Event → List Event
  | [] => []
  | .observerCalled _ :: rest => workerCalls rest
  | .clientGet _ :: rest => workerCalls rest
  | .clientUpdate _ :: rest => workerCalls rest
  | e :: rest => e :: workerCalls rest

/-! ## The event handlers -/

/-- The payload of a notification, an `interface{}`: a `*corev1.Namespace` with its
name, a `cache.DeletedFinalStateUnknown` tombstone with its `Obj`, or an object of
another kind. -/
inductive Payload where
  | namespace (Name : String)
  | deletedFinalStateUnknown (Obj : Payload)
  | otherKind (kind : String)
  deriving Repr

/-- How a callback ends: it returns, or it faults on a nil pointer dereference. -/
inductive Outcome where
  | returned
  | nilDereference
  deriving DecidableEq, Repr

/-- What a callback leaves: the calls made and how it ended. -/
structure HandlerResult where
  trace : List Event
  outcome : Outcome
  deriving Repr

/-- The three callbacks of `eventHandler`: each adds the work queue key. -/
def eventHandler (n : Names) : HandlerResult :=
  ⟨[.queueAdd n.workQueueKey], .returned⟩

/-- The `AddFunc` of `namespaceEventHandler`.  When the type assertion fails `ns` is
nil: the key is added and then `ns.Name` is read. -/
def namespaceAddFunc (n : Names) (obj : Payload) : HandlerResult :=
  match obj with
  | .namespace Name =>
    if Name = n.targetNamespaceName then ⟨[.queueAdd n.workQueueKey], .returned⟩
    else ⟨[], .returned⟩
  | _ => ⟨[.queueAdd n.workQueueKey], .nilDereference⟩

/-- The `UpdateFunc` of `namespaceEventHandler`, which looks at the old object only. -/
def namespaceUpdateFunc (n : Names) (old new : Payload) : HandlerResult :=
  match old, new with
  | .namespace Name, _ =>
    if Name = n.targetNamespaceName then ⟨[.queueAdd n.workQueueKey], .returned⟩
    else ⟨[], .returned⟩
  | _, _ => ⟨[.queueAdd n.workQueueKey], .nilDereference⟩

/-- The `DeleteFunc` of `namespaceEventHandler`: unwraps a tombstone, and returns early
on a payload that is neither a namespace nor a tombstone holding one.  The reported
messages are given without the rendering of the object. -/
def namespaceDeleteFunc (n : Names) (obj : Payload) : HandlerResult :=
  match obj with
  | .namespace Name =>
    if Name = n.targetNamespaceName then ⟨[.queueAdd n.workQueueKey], .returned⟩
    else ⟨[], .returned⟩
  | .deletedFinalStateUnknown (.namespace Name) =>
    if Name = n.targetNamespaceName then ⟨[.queueAdd n.workQueueKey], .returned⟩
    else ⟨[], .returned⟩
  | .deletedFinalStateUnknown _ =>
    ⟨[.handleError "tombstone contained object that is not a Namespace"], .returned⟩
  | .otherKind _ => ⟨[.handleError "couldn't get object from tombstone"], .returned⟩

/-! ## Concrete inputs -/

/-- The values of the package constants. -/
def exampleNames : Names :=
  ⟨"openshift-kube-apiserver", "kube-system", "openshift-apiserver", "key"⟩

/-- An endpoint-set record with the addresses `etcd-0` and `etcd-1` in one subset and
the dns-suffix annotation `example.com`. -/
def etcdRecord : Endpoints :=
  ⟨[("alpha.installer.openshift.io/dns-suffix", "example.com")],
    [⟨[⟨"etcd-0"⟩, ⟨"etcd-1"⟩]⟩]⟩

/-- An endpoint-set record whose only subset has no address. -/
def emptyRecord : Endpoints := ⟨[], [⟨[]⟩]⟩

/-- A cache state in which every lookup is not found. -/
def absentCaches : Listers :=
  ⟨fun _ => .error (.notFound "images \"cluster\" not found"),
    fun _ _ => .error (.notFound "endpoints \"etcd\" not found"),
    fun _ _ => .error (.notFound "configmaps \"public-info\" not found")⟩

/-- A cache state that holds `etcdRecord` and nothing else. -/
def etcdCaches : Listers :=
  ⟨fun _ => .error (.notFound "images \"cluster\" not found"),
    fun _ _ => .ok etcdRecord,
    fun _ _ => .error (.notFound "configmaps \"public-info\" not found")⟩

/-- A cache state that holds `emptyRecord` and a public-info config map without the
node selector key. -/
def emptyRecordCaches : Listers :=
  ⟨fun _ => .error (.notFound "images \"cluster\" not found"),
    fun _ _ => .ok emptyRecord,
    fun _ _ => .ok ⟨[("version", "1")]⟩⟩

/-- A cache state whose endpoint lookup fails with an error that is not not-found. -/
def brokenCaches : Listers :=
  ⟨fun _ => .error (.notFound "images \"cluster\" not found"),
    fun _ _ => .error (.other "cache unavailable"),
    fun _ _ => .error (.notFound "configmaps \"public-info\" not found")⟩

/-- An in-memory store: the state is the stored object, a get returns it, an update
stores the written document in serialized form under the next version.  Serialized
JSON is identified with the document it encodes. -/
def memoryClient : OperatorConfigClient Doc (OperatorConfig Doc) :=
  ⟨fun _ s => (.ok s, s),
    fun obj s =>
      (.ok ⟨s.ResourceVersion + 1, ⟨obj.ObservedConfig.Object, none⟩⟩,
        ⟨s.ResourceVersion + 1, ⟨obj.ObservedConfig.Object, none⟩⟩)⟩

/-- A stored object whose observed config is the empty document. -/
def emptyStored : OperatorConfig Doc := ⟨1, ⟨some [], none⟩⟩

/-- A stored object whose observed config holds a stale etcd URL. -/
def staleStored : OperatorConfig Doc :=
  ⟨1, ⟨some [("storageConfig", .map [("urls", .slice [.str "https://old:2379"])])], none⟩⟩

/-- A cache state that holds `etcdRecord` and a public-info config map with the node
selector key. -/
def selectorCaches : Listers :=
  ⟨fun _ => .error (.notFound "images \"cluster\" not found"),
    fun _ _ => .ok etcdRecord,
    fun _ _ => .ok ⟨[("projectConfig.defaultNodeSelector", "type=master")]⟩⟩

/-- The document that the chain computes from `selectorCaches`. -/
def computedDocument : Doc :=
  [("projectConfig", .map [("defaultNodeSelector", .str "type=master")]),
    ("storageConfig", .map [("urls", .slice [.str "https://etcd-0.example.com:2379",
      .str "https://etcd-1.example.com:2379"])])]

/-- The calls of a chain that runs to its end. -/
def fullChainTrace : List Event :=
  [.observerCalled 0, .observerCalled 1, .observerCalled 2]

/-- The document `computedDocument` with the keys of the top mapping listed in the
other order. -/
def reorderedDocument : Doc :=
  [("storageConfig", .map [("urls", .slice [.str "https://etcd-0.example.com:2379",
      .str "https://etcd-1.example.com:2379"])]),
    ("projectConfig", .map [("defaultNodeSelector", .str "type=master")])]

/-- A stored object whose observed config is `reorderedDocument`. -/
def reorderedStored : OperatorConfig Doc := ⟨7, ⟨some reorderedDocument, none⟩⟩

/-- An input document whose `projectConfig` already holds a mapping with another key
and whose `storageConfig` holds a string. -/
def crowdedDocument : Doc :=
  [("projectConfig", .map [("other", .str "1")]), ("storageConfig", .str "x")]

/-! ## Maps: reading after writing -/

theorem getField_setField_same (field : String) (value : Value) (m : Doc) :
    getField field (setField field value m) = some value := by
  induction m with
  | nil => simp [setField, getField]
  | cons kv rest ih =>
    obtain ⟨k, v⟩ := kv
    by_cases h : k = field
    · simp [setField, getField, h]
    · simp [setField, getField, h, ih]

theorem getField_setField_ne (field k : String) (value : Value) (m : Doc) (h : k ≠ field) :
    getField k (setField field value m) = getField k m := by
  induction m with
  | nil => simp [setField, getField, Ne.symm h]
  | cons kv rest ih =>
    obtain ⟨k', v⟩ := kv
    by_cases h' : k' = field
    · subst h'
      simp [setField, getField, Ne.symm h]
    · by_cases h'' : k' = k
      · subst h''
        simp [setField, getField, h']
      · simp [setField, getField, h', h'', ih]

/-! ## The URL list of `observeEtcdEndpoints` -/

theorem foldl_addresses (ep : Endpoints) (addrs : List EndpointAddress) (acc : List String) :
    addrs.foldl (fun urls address => urls ++ [etcdURL ep address]) acc
      = acc ++ addrs.map (etcdURL ep) := by
  induction addrs generalizing acc with
  | nil => simp
  | cons a rest ih => simp [List.foldl, ih]

theorem foldl_subsets (ep : Endpoints) (subsets : List EndpointSubset) (acc : List String) :
    subsets.foldl
      (fun urls subset => subset.Addresses.foldl
        (fun urls address => urls ++ [etcdURL ep address]) urls) acc
      = acc ++ subsets.flatMap (fun subset => subset.Addresses.map (etcdURL ep)) := by
  induction subsets generalizing acc with
  | nil => simp
  | cons s rest ih =>
    rw [List.foldl_cons, ih, foldl_addresses, List.flatMap_cons, List.append_assoc]

theorem etcdURLsOf_eq (ep : Endpoints) :
    etcdURLsOf ep [] = ep.Subsets.flatMap (fun subset => subset.Addresses.map (etcdURL ep)) := by
  simp [etcdURLsOf, foldl_subsets]

theorem etcdURLsOf_length_pos (ep : Endpoints)
    (h : ∃ subset ∈ ep.Subsets, subset.Addresses ≠ []) : (etcdURLsOf ep []).length > 0 := by
  obtain ⟨subset, hmem, hne⟩ := h
  rw [etcdURLsOf_eq]
  apply List.length_pos.mpr
  intro hnil
  rw [List.flatMap_eq_nil_iff] at hnil
  have := hnil subset hmem
  simp at this
  exact hne this

theorem etcdURLsOf_nil (ep : Endpoints)
    (h : ∀ subset ∈ ep.Subsets, subset.Addresses = []) : etcdURLsOf ep [] = [] := by
  rw [etcdURLsOf_eq, List.flatMap_eq_nil_iff]
  intro subset hmem
  simp [h subset hmem]

/-! ## Setting a nested field -/

theorem setNested_one_ok (value : Value) (parent leaf : String) (m : Doc)
    (hparent : ∀ v, getField parent m = some v → ∃ kvs, v = .map kvs) :
    ∃ m', setNestedFieldNoCopy value leaf [parent] m = .ok m' ∧
      nestedField m' [parent, leaf] = some value := by
  cases hg : getField parent m with
  | none =>
    refine ⟨setField parent (.map (setField leaf value [])) m, ?_, ?_⟩
    · simp [setNestedFieldNoCopy, hg]
    · simp [nestedField, Value.getPath, getField_setField_same]
  | some v =>
    obtain ⟨kvs, rfl⟩ := hparent v hg
    refine ⟨setField parent (.map (setField leaf value kvs)) m, ?_, ?_⟩
    · simp [setNestedFieldNoCopy, hg]
    · simp [nestedField, Value.getPath, getField_setField_same]

/-- Claim C1.  When the lookup of `observeEtcdEndpoints` finds an endpoint-set record
with at least one address, and the key `storageConfig` of the input document is absent
or holds a mapping (so that the setter can descend into it, as in every document that
`sync` passes), the function returns a document whose field `storageConfig.urls` is
exactly the sequence of the strings `"https://" + hostname + "." + suffix + ":2379"`,
one for each address, in subset order and then in address order within a subset, where
`suffix` is the value of the record's dns-suffix annotation. -/
theorem observeEtcdEndpoints_urls (n : Names) (listers : Listers) (observedConfig : Doc)
    (etcdEndpoints : Endpoints)
    (hfound : listers.endpointLister n.etcdNamespaceName "etcd" = .ok etcdEndpoints)
    (haddress : ∃ subset ∈ etcdEndpoints.Subsets, subset.Addresses ≠ [])
    (hparent : ∀ v, getField "storageConfig" observedConfig = some v → ∃ kvs, v = .map kvs) :
    ∃ returned, observeEtcdEndpoints n listers observedConfig = .ok returned ∧
      nestedField returned ["storageConfig", "urls"] =
        some (.slice ((etcdEndpoints.Subsets.flatMap (fun subset =>
          subset.Addresses.map (fun address =>
            "https://" ++ address.Hostname ++ "." ++
              stringMapIndex etcdEndpoints.Annotations
                "alpha.installer.openshift.io/dns-suffix" ++ ":2379"))).map Value.str)) := by
  have hpos := etcdURLsOf_length_pos etcdEndpoints haddress
  obtain ⟨m', hset, hget⟩ := setNested_one_ok
    (.slice ((etcdURLsOf etcdEndpoints []).map Value.str)) "storageConfig" "urls"
    observedConfig hparent
  refine ⟨m', ?_, ?_⟩
  · simp only [observeEtcdEndpoints, hfound, setEtcdURLs]
    rw [if_pos hpos]
    simp [SetNestedStringSlice, hset, afterCall]
  · rw [hget, etcdURLsOf_eq]
    rfl

/-- Claim C2.  When the endpoint-set record is found and no subset of it has an
address (no subsets at all, or only subsets with empty address lists),
`observeEtcdEndpoints` returns the input document unchanged and no error; the field
`storageConfig.urls` of the returned document is what it was in the input, so it is
not set, and not set to the empty sequence. -/
theorem observeEtcdEndpoints_no_addresses (n : Names) (listers : Listers)
    (observedConfig : Doc) (etcdEndpoints : Endpoints)
    (hfound : listers.endpointLister n.etcdNamespaceName "etcd" = .ok etcdEndpoints)
    (hnone : ∀ subset ∈ etcdEndpoints.Subsets, subset.Addresses = []) :
    observeEtcdEndpoints n listers observedConfig = .ok observedConfig ∧
      ∀ returned, observeEtcdEndpoints n listers observedConfig = .ok returned →
        nestedField returned ["storageConfig", "urls"] =
          nestedField observedConfig ["storageConfig", "urls"] := by
  have h : observeEtcdEndpoints n listers observedConfig = .ok observedConfig := by
    simp [observeEtcdEndpoints, hfound, setEtcdURLs, etcdURLsOf_nil etcdEndpoints hnone]
  refine ⟨h, ?_⟩
  intro returned hret
  rw [h] at hret
  cases hret
  rfl

/-- Claim C6, as the code has it.  When the endpoint-set lookup fails with a not-found
error, `observeEtcdEndpoints` returns the input document unchanged and no error, and
the loop of `sync` goes on to the next observer with that document: not-found is
tolerated by this observer too. -/
theorem observeEtcdEndpoints_not_found_tolerated (n : Names) (listers : Listers)
    (observedConfig : Doc) (msg : String)
    (hlookup : listers.endpointLister n.etcdNamespaceName "etcd" = .error (.notFound msg)) :
    observeEtcdEndpoints n listers observedConfig = .ok observedConfig ∧
      ∀ (rest : List observeConfigFunc) (i : Nat),
        runObservers listers (observeEtcdEndpoints n :: rest) i observedConfig =
          ((runObservers listers rest (i + 1) observedConfig).1,
            .observerCalled i :: (runObservers listers rest (i + 1) observedConfig).2) := by
  have h : observeEtcdEndpoints n listers observedConfig = .ok observedConfig := by
    simp [observeEtcdEndpoints, hlookup, setEtcdURLs, Err.IsNotFound]
  refine ⟨h, ?_⟩
  intro rest i
  simp [runObservers, h]

/-- Claim C7.  When the lookup of the cluster-scoped image record is not found,
`observeInternalRegistryHostname` returns the input document unchanged and no error;
when the lookup of the public-info config map is not found, or finds a record without
the data key `projectConfig.defaultNodeSelector`, `observeKubeAPIServerPublicInfo`
returns the input document unchanged and no error. -/
theorem not_found_tolerated (n : Names) (listers : Listers) (observedConfig : Doc) :
    (∀ msg, listers.imageConfigLister "cluster" = .error (.notFound msg) →
      observeInternalRegistryHostname listers observedConfig = .ok observedConfig) ∧
    (∀ msg, listers.configmapLister n.kubeAPIServerNamespaceName "public-info"
        = .error (.notFound msg) →
      observeKubeAPIServerPublicInfo n listers observedConfig = .ok observedConfig) ∧
    (∀ info, listers.configmapLister n.kubeAPIServerNamespaceName "public-info" = .ok info →
      info.Data.lookup "projectConfig.defaultNodeSelector" = none →
      observeKubeAPIServerPublicInfo n listers observedConfig = .ok observedConfig) := by
  refine ⟨?_, ?_, ?_⟩
  · intro msg h
    simp [observeInternalRegistryHostname, h, Err.IsNotFound]
  · intro msg h
    simp [observeKubeAPIServerPublicInfo, h, Err.IsNotFound]
  · intro info h hkey
    simp [observeKubeAPIServerPublicInfo, h, hkey]

/-! ## The frame of the setter -/

theorem getPath_empty_map (k : String) (ks : List String) :
    Value.getPath (.map []) (k :: ks) = none := by
  simp [Value.getPath, getField]

theorem getPath_of_some (m : Doc) (k : String) (ks : List String) (v : Value)
    (h : getField k m = some v) : Value.getPath (.map m) (k :: ks) = Value.getPath v ks := by
  simp [Value.getPath, h]

theorem getPath_of_none (m : Doc) (k : String) (ks : List String)
    (h : getField k m = none) : Value.getPath (.map m) (k :: ks) = none := by
  simp [Value.getPath, h]

theorem setNested_frame (value : Value) (leaf : String) :
    ∀ (parents : List String) (m m' : Doc),
      setNestedFieldNoCopy value leaf parents m = .ok m' →
      ∀ p, ¬ p <+: (parents ++ [leaf]) → ¬ (parents ++ [leaf]) <+: p →
        Value.getPath (.map m') p = Value.getPath (.map m) p := by
  intro parents
  induction parents with
  | nil =>
    intro m m' hset p hp hq
    simp only [setNestedFieldNoCopy, Except.ok.injEq] at hset
    subst hset
    cases p with
    | nil => exact absurd List.nil_prefix hp
    | cons k ks =>
      have hk : k ≠ leaf := by
        intro h
        subst h
        exact hq (by simp [List.cons_prefix_cons])
      simp [Value.getPath, getField_setField_ne leaf k value m hk]
  | cons f rest ih =>
    intro m m' hset p hp hq
    cases p with
    | nil => exact absurd List.nil_prefix hp
    | cons k ks =>
      have hsub : ∀ (sub sub' : Doc), setNestedFieldNoCopy value leaf rest sub = .ok sub' →
          k = f → Value.getPath (.map sub') ks = Value.getPath (.map sub) ks := by
        intro sub sub' hs hkf
        subst hkf
        apply ih sub sub' hs ks
        · intro h
          exact hp (by simp [List.cons_prefix_cons, h])
        · intro h
          exact hq (by simp [List.cons_prefix_cons, h])
      have hks : k = f → ks ≠ [] := by
        intro hkf h
        subst hkf
        subst h
        exact hp (by simp [List.cons_prefix_cons])
      cases hg : getField f m with
      | none =>
        simp only [setNestedFieldNoCopy, hg] at hset
        cases hs : setNestedFieldNoCopy value leaf rest [] with
        | error e => simp [hs] at hset
        | ok sub' =>
          simp only [hs, Except.ok.injEq] at hset
          subst hset
          by_cases hkf : k = f
          · have h1 := hsub [] sub' hs hkf
            have h2 := hks hkf
            subst hkf
            cases ks with
            | nil => exact absurd rfl h2
            | cons k2 ks2 =>
              rw [getPath_empty_map] at h1
              rw [getPath_of_some _ k _ _ (getField_setField_same k _ m),
                getPath_of_none m k _ hg, h1]
          · simp [Value.getPath, getField_setField_ne f k _ m hkf]
      | some v =>
        cases v with
        | str s => simp [setNestedFieldNoCopy, hg] at hset
        | scalar j => simp [setNestedFieldNoCopy, hg] at hset
        | slice xs => simp [setNestedFieldNoCopy, hg] at hset
        | map sub =>
          simp only [setNestedFieldNoCopy, hg] at hset
          cases hs : setNestedFieldNoCopy value leaf rest sub with
          | error e => simp [hs] at hset
          | ok sub' =>
            simp only [hs, Except.ok.injEq] at hset
            subst hset
            by_cases hkf : k = f
            · have h1 := hsub sub sub' hs hkf
              subst hkf
              rw [getPath_of_some _ k _ _ (getField_setField_same k _ m),
                getPath_of_some m k _ _ hg, h1]
            · simp [Value.getPath, getField_setField_ne f k _ m hkf]

theorem keepsOtherFields_refl (own : List String) (m : Doc) : keepsOtherFields own m m := by
  refine ⟨fun _ _ _ => rfl, fun _ _ _ _ _ _ => rfl, ?_⟩
  intro p kvs _ _ h
  exact ⟨kvs, h⟩

theorem proper_prefix_pair (p : List String) (parent leaf : String)
    (hp : p <+: [parent, leaf]) (hne : p ≠ [parent, leaf]) : p = [] ∨ p = [parent] := by
  cases p with
  | nil => exact Or.inl rfl
  | cons a t =>
    rw [List.cons_prefix_cons] at hp
    obtain ⟨rfl, ht⟩ := hp
    cases t with
    | nil => exact Or.inr rfl
    | cons b u =>
      rw [List.cons_prefix_cons] at ht
      obtain ⟨rfl, hu⟩ := ht
      have : u = [] := List.prefix_nil.mp hu
      subst this
      exact absurd rfl hne

theorem keepsOtherFields_afterCall (value : Value) (parent leaf : String) (m : Doc) :
    keepsOtherFields [parent, leaf] m
      (afterCall m (setNestedFieldNoCopy value leaf [parent] m)) := by
  cases hs : setNestedFieldNoCopy value leaf [parent] m with
  | error e => exact keepsOtherFields_refl _ m
  | ok m' =>
    simp only [afterCall]
    refine ⟨?_, ?_, ?_⟩
    · intro p hp hq
      exact setNested_frame value leaf [parent] m m' hs p hp hq
    · intro p v hp hne hv hnm
      rcases proper_prefix_pair p parent leaf hp hne with rfl | rfl
      · simp [nestedField, Value.getPath] at hv
        exact absurd hv.symm (hnm m)
      · exfalso
        cases hg : getField parent m with
        | none => simp [nestedField, Value.getPath, hg] at hv
        | some w =>
          simp [nestedField, Value.getPath, hg] at hv
          subst hv
          cases w with
          | str s => simp [setNestedFieldNoCopy, hg] at hs
          | scalar j => simp [setNestedFieldNoCopy, hg] at hs
          | slice xs => simp [setNestedFieldNoCopy, hg] at hs
          | map sub => exact hnm sub rfl
    · intro p kvs hp hne hv
      rcases proper_prefix_pair p parent leaf hp hne with rfl | rfl
      · exact ⟨m', by simp [nestedField, Value.getPath]⟩
      · cases hg : getField parent m with
        | none => simp [nestedField, Value.getPath, hg] at hv
        | some w =>
          simp [nestedField, Value.getPath, hg] at hv
          subst hv
          simp only [setNestedFieldNoCopy, hg, Except.ok.injEq] at hs
          subst hs
          exact ⟨setField leaf value kvs, by
            simp [nestedField, Value.getPath, getField_setField_same]⟩

/-- Claim C9.  Whenever one of the three observers returns without error, the returned
document keeps every field of the input document outside the observer's own path
(`projectConfig.defaultNodeSelector`, `storageConfig.urls`,
`imagePolicyConfig.internalRegistryHostname`): every path that is neither a prefix nor
an extension of the own path holds the same value as in the input, so the other keys of
a parent mapping stay; and a parent key that holds a non-mapping value is left as it
is, the whole document being returned unchanged. -/
theorem observers_keep_other_fields (n : Names) (listers : Listers) (observedConfig : Doc) :
    (∀ returned, observeKubeAPIServerPublicInfo n listers observedConfig = .ok returned →
      keepsOtherFields ["projectConfig", "defaultNodeSelector"] observedConfig returned) ∧
    (∀ returned, observeEtcdEndpoints n listers observedConfig = .ok returned →
      keepsOtherFields ["storageConfig", "urls"] observedConfig returned) ∧
    (∀ returned, observeInternalRegistryHostname listers observedConfig = .ok returned →
      keepsOtherFields ["imagePolicyConfig", "internalRegistryHostname"]
        observedConfig returned) := by
  refine ⟨?_, ?_, ?_⟩
  · intro returned h
    unfold observeKubeAPIServerPublicInfo at h
    split at h
    · split at h
      · cases h
      · cases h
        exact keepsOtherFields_refl _ _
    · split at h
      · cases h
        exact keepsOtherFields_afterCall _ _ _ _
      · cases h
        exact keepsOtherFields_refl _ _
  · intro returned h
    have hset : ∀ urls, keepsOtherFields ["storageConfig", "urls"] observedConfig
        (setEtcdURLs observedConfig urls) := by
      intro urls
      unfold setEtcdURLs
      split
      · exact keepsOtherFields_afterCall _ _ _ _
      · exact keepsOtherFields_refl _ _
    unfold observeEtcdEndpoints at h
    split at h
    · split at h
      · cases h
      · cases h
        exact hset _
    · cases h
      exact hset _
  · intro returned h
    unfold observeInternalRegistryHostname at h
    split at h
    · split at h
      · cases h
        exact keepsOtherFields_refl _ _
      · cases h
    · simp only at h
      split at h
      · cases h
        exact keepsOtherFields_afterCall _ _ _ _
      · cases h
        exact keepsOtherFields_refl _ _

/-! ## Deep equality decides structural equality -/

theorem getField_mem_keys (k : String) (m : Doc) (v : Value) (h : getField k m = some v) :
    k ∈ keysOf m := by
  induction m with
  | nil => simp [getField] at h
  | cons kv rest ih =>
    obtain ⟨k', w⟩ := kv
    by_cases hk : k' = k
    · simp [keysOf, hk]
    · simp only [getField, hk, if_false] at h
      have := ih h
      simp only [keysOf] at this
      simp [keysOf, this]

theorem getField_wellFormed (k : String) (m : Doc) (v : Value) (h : getField k m = some v)
    (hwf : fieldsWellFormed m = true) : v.wellFormed = true := by
  induction m with
  | nil => simp [getField] at h
  | cons kv rest ih =>
    obtain ⟨k', w⟩ := kv
    simp only [fieldsWellFormed, Bool.and_eq_true] at hwf
    by_cases hk : k' = k
    · simp only [getField, hk, if_true, Option.some.injEq] at h
      subst h
      exact hwf.1
    · simp only [getField, hk, if_false] at h
      exact ih h hwf.2

theorem structEqFields_keys (a b : Doc) (h : StructEqFields a b) :
    ∀ k, k ∈ keysOf a → k ∈ keysOf b := by
  induction a with
  | nil => intro k hk; simp [keysOf] at hk
  | cons kv rest ih =>
    obtain ⟨k', v⟩ := kv
    simp only [StructEqFields] at h
    obtain ⟨⟨w, hw, _⟩, hrest⟩ := h
    intro k hk
    simp only [keysOf, List.map_cons, List.mem_cons] at hk
    rcases hk with rfl | hk
    · exact getField_mem_keys _ b w hw
    · exact ih hrest k hk

theorem length_eq_of_same_keys (a b : Doc) (ha : (keysOf a).Nodup) (hb : (keysOf b).Nodup)
    (hab : ∀ k, k ∈ keysOf a → k ∈ keysOf b) (hba : ∀ k, k ∈ keysOf b → k ∈ keysOf a) :
    a.length = b.length := by
  have h1 := (List.subperm_of_subset ha hab).length_le
  have h2 := (List.subperm_of_subset hb hba).length_le
  simp only [keysOf, List.length_map] at h1 h2
  omega

mutual
theorem Value.deepEqual_of_structEq : ∀ (v w : Value), v.wellFormed = true →
    w.wellFormed = true → Value.StructEq v w → Value.deepEqual v w = true
  | .str a, .str b, _, _, h => by
    simp only [Value.StructEq] at h
    simp [Value.deepEqual, h]
  | .scalar a, .scalar b, _, _, h => by
    simp only [Value.StructEq] at h
    simp [Value.deepEqual, h]
  | .str _, .scalar _, _, _, h => by simp [Value.StructEq] at h
  | .str _, .slice _, _, _, h => by simp [Value.StructEq] at h
  | .str _, .map _, _, _, h => by simp [Value.StructEq] at h
  | .scalar _, .str _, _, _, h => by simp [Value.StructEq] at h
  | .scalar _, .slice _, _, _, h => by simp [Value.StructEq] at h
  | .scalar _, .map _, _, _, h => by simp [Value.StructEq] at h
  | .slice _, .str _, _, _, h => by simp [Value.StructEq] at h
  | .slice _, .scalar _, _, _, h => by simp [Value.StructEq] at h
  | .map _, .scalar _, _, _, h => by simp [Value.StructEq] at h
  | .slice a, .slice b, hv, hw, h => by
    simp only [Value.StructEq] at h
    simp only [Value.wellFormed] at hv hw
    simp only [Value.deepEqual]
    exact deepEqualSlice_of_structEq a b hv hw h
  | .slice _, .map _, _, _, h => by simp [Value.StructEq] at h
  | .map _, .str _, _, _, h => by simp [Value.StructEq] at h
  | .map _, .slice _, _, _, h => by simp [Value.StructEq] at h
  | .map a, .map b, hv, hw, h => by
    simp only [Value.StructEq] at h
    simp only [Value.wellFormed, Bool.and_eq_true, decide_eq_true_eq] at hv hw
    have hlen := length_eq_of_same_keys a b hv.1 hw.1 (structEqFields_keys a b h.2) h.1
    simp only [Value.deepEqual, Bool.and_eq_true, beq_iff_eq]
    exact ⟨hlen, deepEqualKeys_of_structEq a b hv.2 hw.2 h.2⟩
theorem deepEqualSlice_of_structEq : ∀ (xs ys : List Value), allWellFormed xs = true →
    allWellFormed ys = true → StructEqSeq xs ys → deepEqualSlice xs ys = true
  | [], [], _, _, _ => by simp [deepEqualSlice]
  | [], _ :: _, _, _, h => by simp [StructEqSeq] at h
  | _ :: _, [], _, _, h => by simp [StructEqSeq] at h
  | x :: xs, y :: ys, hx, hy, h => by
    simp only [StructEqSeq] at h
    simp only [allWellFormed, Bool.and_eq_true] at hx hy
    simp only [deepEqualSlice, Bool.and_eq_true]
    exact ⟨Value.deepEqual_of_structEq x y hx.1 hy.1 h.1,
      deepEqualSlice_of_structEq xs ys hx.2 hy.2 h.2⟩
theorem deepEqualKeys_of_structEq : ∀ (a b : List (String × Value)),
    fieldsWellFormed a = true → fieldsWellFormed b = true → StructEqFields a b →
    deepEqualKeys a b = true
  | [], _, _, _, _ => by simp [deepEqualKeys]
  | (k, v) :: rest, b, ha, hb, h => by
    simp only [StructEqFields] at h
    obtain ⟨⟨w, hw, hvw⟩, hrest⟩ := h
    simp only [fieldsWellFormed, Bool.and_eq_true] at ha
    simp only [deepEqualKeys, hw, Bool.and_eq_true]
    exact ⟨Value.deepEqual_of_structEq v w ha.1 (getField_wellFormed k b w hw hb) hvw,
      deepEqualKeys_of_structEq rest b ha.2 hb hrest⟩
end

theorem DeepEqual_complete (a b : Doc) (ha : Doc.wellFormed a = true)
    (hb : Doc.wellFormed b = true) (h : Value.StructEq (.map a) (.map b)) :
    DeepEqual (some a) b = true :=
  Value.deepEqual_of_structEq (.map a) (.map b) ha hb h

theorem deepEqualKeys_keys (a b : Doc) (h : deepEqualKeys a b = true) :
    ∀ k, k ∈ keysOf a → k ∈ keysOf b := by
  induction a with
  | nil => intro k hk; simp [keysOf] at hk
  | cons kv rest ih =>
    obtain ⟨k', v⟩ := kv
    simp only [deepEqualKeys, Bool.and_eq_true] at h
    intro k hk
    simp only [keysOf, List.map_cons, List.mem_cons] at hk
    rcases hk with rfl | hk
    · cases hg : getField k b with
      | none => simp [hg] at h
      | some w => exact getField_mem_keys _ b w hg
    · exact ih h.2 k hk

theorem keys_superset_of_length (a b : Doc) (ha : (keysOf a).Nodup)
    (hab : ∀ k, k ∈ keysOf a → k ∈ keysOf b) (hlen : a.length = b.length) :
    ∀ k, k ∈ keysOf b → k ∈ keysOf a := by
  have hle : (keysOf b).length ≤ (keysOf a).length := by
    simp only [keysOf, List.length_map]
    omega
  have hperm := (List.subperm_of_subset ha hab).perm_of_length_le hle
  intro k hk
  exact hperm.symm.subset hk

mutual
theorem Value.structEq_of_deepEqual : ∀ (v w : Value), v.wellFormed = true →
    w.wellFormed = true → Value.deepEqual v w = true → Value.StructEq v w
  | .str a, .str b, _, _, h => by
    simp only [Value.deepEqual, beq_iff_eq] at h
    simp [Value.StructEq, h]
  | .scalar a, .scalar b, _, _, h => by
    simp only [Value.deepEqual, beq_iff_eq] at h
    simp [Value.StructEq, h]
  | .str _, .scalar _, _, _, h => by simp [Value.deepEqual] at h
  | .str _, .slice _, _, _, h => by simp [Value.deepEqual] at h
  | .str _, .map _, _, _, h => by simp [Value.deepEqual] at h
  | .scalar _, .str _, _, _, h => by simp [Value.deepEqual] at h
  | .scalar _, .slice _, _, _, h => by simp [Value.deepEqual] at h
  | .scalar _, .map _, _, _, h => by simp [Value.deepEqual] at h
  | .slice _, .str _, _, _, h => by simp [Value.deepEqual] at h
  | .slice _, .scalar _, _, _, h => by simp [Value.deepEqual] at h
  | .map _, .scalar _, _, _, h => by simp [Value.deepEqual] at h
  | .slice a, .slice b, hv, hw, h => by
    simp only [Value.deepEqual] at h
    simp only [Value.wellFormed] at hv hw
    simp only [Value.StructEq]
    exact structEqSeq_of_deepEqual a b hv hw h
  | .slice _, .map _, _, _, h => by simp [Value.deepEqual] at h
  | .map _, .str _, _, _, h => by simp [Value.deepEqual] at h
  | .map _, .slice _, _, _, h => by simp [Value.deepEqual] at h
  | .map a, .map b, hv, hw, h => by
    simp only [Value.deepEqual, Bool.and_eq_true, beq_iff_eq] at h
    simp only [Value.wellFormed, Bool.and_eq_true, decide_eq_true_eq] at hv hw
    simp only [Value.StructEq]
    exact ⟨keys_superset_of_length a b hv.1 (deepEqualKeys_keys a b h.2) h.1,
      structEqFields_of_deepEqual a b hv.2 hw.2 h.2⟩
theorem structEqSeq_of_deepEqual : ∀ (xs ys : List Value), allWellFormed xs = true →
    allWellFormed ys = true → deepEqualSlice xs ys = true → StructEqSeq xs ys
  | [], [], _, _, _ => by simp [StructEqSeq]
  | [], _ :: _, _, _, h => by simp [deepEqualSlice] at h
  | _ :: _, [], _, _, h => by simp [deepEqualSlice] at h
  | x :: xs, y :: ys, hx, hy, h => by
    simp only [deepEqualSlice, Bool.and_eq_true] at h
    simp only [allWellFormed, Bool.and_eq_true] at hx hy
    simp only [StructEqSeq]
    exact ⟨Value.structEq_of_deepEqual x y hx.1 hy.1 h.1,
      structEqSeq_of_deepEqual xs ys hx.2 hy.2 h.2⟩
theorem structEqFields_of_deepEqual : ∀ (a b : List (String × Value)),
    fieldsWellFormed a = true → fieldsWellFormed b = true → deepEqualKeys a b = true →
    StructEqFields a b
  | [], _, _, _, _ => by simp [StructEqFields]
  | (k, v) :: rest, b, ha, hb, h => by
    simp only [deepEqualKeys, Bool.and_eq_true] at h
    simp only [fieldsWellFormed, Bool.and_eq_true] at ha
    simp only [StructEqFields]
    cases hg : getField k b with
    | none => simp [hg] at h
    | some w =>
      simp only [hg] at h
      exact ⟨⟨w, rfl, Value.structEq_of_deepEqual v w ha.1
        (getField_wellFormed k b w hg hb) h.1⟩,
        structEqFields_of_deepEqual rest b ha.2 hb h.2⟩
end

/-- On maps without repeated keys, `reflect.DeepEqual` holds exactly of the structurally
equal ones. -/
theorem DeepEqual_decides_structEq (a b : Doc) (ha : Doc.wellFormed a = true)
    (hb : Doc.wellFormed b = true) :
    DeepEqual (some a) b = true ↔ Value.StructEq (.map a) (.map b) :=
  ⟨Value.structEq_of_deepEqual (.map a) (.map b) ha hb,
    Value.deepEqual_of_structEq (.map a) (.map b) ha hb⟩

/-- The document that `sync` passes to `observeEtcdEndpoints`, the one the first
observer returns from the empty document, has no key `storageConfig`. -/
theorem chain_document_settable (n : Names) (listers : Listers) (d : Doc)
    (h : observeKubeAPIServerPublicInfo n listers [] = .ok d) :
    getField "storageConfig" d = none := by
  unfold observeKubeAPIServerPublicInfo at h
  split at h
  · split at h
    · cases h
    · cases h
      rfl
  · split at h
    · cases h
      rfl
    · cases h
      rfl

/-! ## Well-formed documents -/

theorem keysOf_setField (field : String) (value : Value) (m : Doc) :
    keysOf (setField field value m) =
      if field ∈ keysOf m then keysOf m else keysOf m ++ [field] := by
  induction m with
  | nil => simp [setField, keysOf]
  | cons kv rest ih =>
    obtain ⟨k, v⟩ := kv
    by_cases hk : k = field
    · subst hk
      simp [setField, keysOf]
    · have hk' : ¬ field = k := fun h => hk h.symm
      simp only [keysOf] at ih
      by_cases hmem : field ∈ List.map Prod.fst rest
      · simp [setField, keysOf, hk, hk', hmem, ih]
      · simp [setField, keysOf, hk, hk', hmem, ih]

theorem nodup_keys_setField (field : String) (value : Value) (m : Doc)
    (h : (keysOf m).Nodup) : (keysOf (setField field value m)).Nodup := by
  rw [keysOf_setField]
  by_cases hmem : field ∈ keysOf m
  · simp [hmem, h]
  · simp only [hmem, if_false]
    rw [List.nodup_append]
    refine ⟨h, List.nodup_singleton _, ?_⟩
    intro a ha hb
    simp only [List.mem_singleton] at hb
    subst hb
    exact hmem ha

theorem fieldsWellFormed_setField (field : String) (value : Value) (m : Doc)
    (hv : value.wellFormed = true) (h : fieldsWellFormed m = true) :
    fieldsWellFormed (setField field value m) = true := by
  induction m with
  | nil => simp [setField, fieldsWellFormed, hv]
  | cons kv rest ih =>
    obtain ⟨k, v⟩ := kv
    simp only [fieldsWellFormed, Bool.and_eq_true] at h
    by_cases hk : k = field
    · simp [setField, hk, fieldsWellFormed, hv, h.2]
    · simp [setField, hk, fieldsWellFormed, h.1, ih h.2]

theorem wellFormed_setField (field : String) (value : Value) (m : Doc)
    (hv : value.wellFormed = true) (h : Doc.wellFormed m = true) :
    Doc.wellFormed (setField field value m) = true := by
  simp only [Doc.wellFormed, Value.wellFormed, Bool.and_eq_true, decide_eq_true_eq] at h ⊢
  exact ⟨nodup_keys_setField field value m h.1, fieldsWellFormed_setField field value m hv h.2⟩

theorem wellFormed_nil : Doc.wellFormed [] = true := by
  simp [Doc.wellFormed, Value.wellFormed, fieldsWellFormed, keysOf]

theorem wellFormed_setNested (value : Value) (leaf : String) (hv : value.wellFormed = true) :
    ∀ (parents : List String) (m m' : Doc), Doc.wellFormed m = true →
      setNestedFieldNoCopy value leaf parents m = .ok m' → Doc.wellFormed m' = true := by
  intro parents
  induction parents with
  | nil =>
    intro m m' hm hset
    simp only [setNestedFieldNoCopy, Except.ok.injEq] at hset
    subst hset
    exact wellFormed_setField leaf value m hv hm
  | cons f rest ih =>
    intro m m' hm hset
    cases hg : getField f m with
    | none =>
      simp only [setNestedFieldNoCopy, hg] at hset
      cases hs : setNestedFieldNoCopy value leaf rest [] with
      | error e => simp [hs] at hset
      | ok sub' =>
        simp only [hs, Except.ok.injEq] at hset
        subst hset
        exact wellFormed_setField f _ m (ih [] sub' wellFormed_nil hs) hm
    | some v =>
      cases v with
      | str s => simp [setNestedFieldNoCopy, hg] at hset
      | scalar j => simp [setNestedFieldNoCopy, hg] at hset
      | slice xs => simp [setNestedFieldNoCopy, hg] at hset
      | map sub =>
        simp only [setNestedFieldNoCopy, hg] at hset
        cases hs : setNestedFieldNoCopy value leaf rest sub with
        | error e => simp [hs] at hset
        | ok sub' =>
          simp only [hs, Except.ok.injEq] at hset
          subst hset
          have hsub : Doc.wellFormed sub = true := by
            have hm' := hm
            simp only [Doc.wellFormed, Value.wellFormed, Bool.and_eq_true] at hm'
            exact getField_wellFormed f m (.map sub) hg hm'.2
          exact wellFormed_setField f _ m (ih sub sub' hsub hs) hm

theorem wellFormed_afterCall (value : Value) (leaf : String) (parents : List String) (m : Doc)
    (hv : value.wellFormed = true) (hm : Doc.wellFormed m = true) :
    Doc.wellFormed (afterCall m (setNestedFieldNoCopy value leaf parents m)) = true := by
  cases hs : setNestedFieldNoCopy value leaf parents m with
  | error e => simpa [afterCall] using hm
  | ok m' => simpa [afterCall] using wellFormed_setNested value leaf hv parents m m' hm hs

theorem allWellFormed_strings (l : List String) : allWellFormed (l.map Value.str) = true := by
  induction l with
  | nil => simp [allWellFormed]
  | cons a rest ih => simp [allWellFormed, Value.wellFormed, ih]

theorem wellFormed_observeKubeAPIServerPublicInfo (n : Names) (listers : Listers)
    (m m' : Doc) (hm : Doc.wellFormed m = true)
    (h : observeKubeAPIServerPublicInfo n listers m = .ok m') : Doc.wellFormed m' = true := by
  unfold observeKubeAPIServerPublicInfo at h
  split at h
  · split at h
    · cases h
    · cases h
      exact hm
  · split at h
    · cases h
      exact wellFormed_afterCall _ _ _ _ (by simp [Value.wellFormed]) hm
    · cases h
      exact hm

theorem wellFormed_observeEtcdEndpoints (n : Names) (listers : Listers)
    (m m' : Doc) (hm : Doc.wellFormed m = true)
    (h : observeEtcdEndpoints n listers m = .ok m') : Doc.wellFormed m' = true := by
  have hset : ∀ urls, Doc.wellFormed (setEtcdURLs m urls) = true := by
    intro urls
    unfold setEtcdURLs
    split
    · exact wellFormed_afterCall _ _ _ _
        (by simp [Value.wellFormed, allWellFormed_strings]) hm
    · exact hm
  unfold observeEtcdEndpoints at h
  split at h
  · split at h
    · cases h
    · cases h
      exact hset _
  · cases h
    exact hset _

theorem wellFormed_observeInternalRegistryHostname (listers : Listers)
    (m m' : Doc) (hm : Doc.wellFormed m = true)
    (h : observeInternalRegistryHostname listers m = .ok m') : Doc.wellFormed m' = true := by
  unfold observeInternalRegistryHostname at h
  split at h
  · split at h
    · cases h
      exact hm
    · cases h
  · simp only at h
    split at h
    · cases h
      exact wellFormed_afterCall _ _ _ _ (by simp [Value.wellFormed]) hm
    · cases h
      exact hm

theorem wellFormed_runObservers (listers : Listers) (observers : List observeConfigFunc)
    (hobs : ∀ f ∈ observers, ∀ m m', Doc.wellFormed m = true → f listers m = .ok m' →
      Doc.wellFormed m' = true) :
    ∀ (i : Nat) (m m' : Doc) (tr : List Event), Doc.wellFormed m = true →
      runObservers listers observers i m = (.ok m', tr) → Doc.wellFormed m' = true := by
  induction observers with
  | nil =>
    intro i m m' tr hm h
    simp only [runObservers, Prod.mk.injEq, Except.ok.injEq] at h
    rw [← h.1]
    exact hm
  | cons f rest ih =>
    intro i m m' tr hm h
    simp only [runObservers] at h
    cases hf : f listers m with
    | error e => simp [hf] at h
    | ok d =>
      simp only [hf, Prod.mk.injEq] at h
      have hd := hobs f (List.mem_cons_self _ _) m d hm hf
      exact ih (fun g hg => hobs g (List.mem_cons_of_mem _ hg)) (i + 1) d m'
        (runObservers listers rest (i + 1) d).2 hd (Prod.ext h.1 rfl)

theorem wellFormed_chain (n : Names) (listers : Listers) (m : Doc) (tr : List Event)
    (h : runObservers listers (defaultObservers n) 0 [] = (.ok m, tr)) :
    Doc.wellFormed m = true := by
  apply wellFormed_runObservers listers (defaultObservers n) _ 0 [] m tr wellFormed_nil h
  intro f hf a b ha hab
  simp only [defaultObservers, List.mem_cons, List.mem_singleton, List.not_mem_nil,
    or_false] at hf
  rcases hf with rfl | rfl | rfl
  · exact wellFormed_observeKubeAPIServerPublicInfo n listers a b ha hab
  · exact wellFormed_observeEtcdEndpoints n listers a b ha hab
  · exact wellFormed_observeInternalRegistryHostname listers a b ha hab

/-! ## Structural equality is reflexive on well-formed values -/

theorem getField_of_mem (m : Doc) (h : (keysOf m).Nodup) (k : String) (v : Value)
    (hmem : (k, v) ∈ m) : getField k m = some v := by
  induction m with
  | nil => simp at hmem
  | cons kv rest ih =>
    obtain ⟨k', w⟩ := kv
    simp only [keysOf, List.map_cons, List.nodup_cons] at h
    simp only [List.mem_cons, Prod.mk.injEq] at hmem
    rcases hmem with ⟨rfl, rfl⟩ | hmem
    · simp [getField]
    · have hne : k' ≠ k := by
        intro hk
        subst hk
        exact h.1 (List.mem_map_of_mem Prod.fst hmem)
      simp only [getField, hne, if_false]
      exact ih h.2 hmem

mutual
theorem Value.structEq_refl : ∀ (v : Value), v.wellFormed = true → Value.StructEq v v
  | .str _, _ => by simp [Value.StructEq]
  | .scalar _, _ => by simp [Value.StructEq]
  | .slice xs, h => by
    simp only [Value.wellFormed] at h
    simp only [Value.StructEq]
    exact structEqSeq_refl xs h
  | .map kvs, h => by
    simp only [Value.wellFormed, Bool.and_eq_true, decide_eq_true_eq] at h
    simp only [Value.StructEq]
    exact ⟨fun _ hk => hk,
      structEqFields_refl kvs kvs h.2 (fun k v hkv => getField_of_mem kvs h.1 k v hkv)⟩
theorem structEqSeq_refl : ∀ (xs : List Value), allWellFormed xs = true → StructEqSeq xs xs
  | [], _ => by simp [StructEqSeq]
  | x :: xs, h => by
    simp only [allWellFormed, Bool.and_eq_true] at h
    simp only [StructEqSeq]
    exact ⟨Value.structEq_refl x h.1, structEqSeq_refl xs h.2⟩
theorem structEqFields_refl : ∀ (a b : List (String × Value)), fieldsWellFormed a = true →
    (∀ k v, (k, v) ∈ a → getField k b = some v) → StructEqFields a b
  | [], _, _, _ => by simp [StructEqFields]
  | (k, v) :: rest, b, h, hb => by
    simp only [fieldsWellFormed, Bool.and_eq_true] at h
    simp only [StructEqFields]
    exact ⟨⟨v, hb k v (List.mem_cons_self _ _), Value.structEq_refl v h.1⟩,
      structEqFields_refl rest b h.2 (fun k' v' hm => hb k' v' (List.mem_cons_of_mem _ hm))⟩
end

/-! ## The pass -/

theorem updateCalls_append (a b : List Event) :
    updateCalls (a ++ b) = updateCalls a + updateCalls b := by
  induction a with
  | nil => simp [updateCalls]
  | cons e rest ih =>
    cases e
    case clientUpdate d =>
      simp [updateCalls, ih]
      omega
    all_goals simp [updateCalls, ih]

theorem workerCalls_append (a b : List Event) :
    workerCalls (a ++ b) = workerCalls a ++ workerCalls b := by
  induction a with
  | nil => simp [workerCalls]
  | cons e rest ih =>
    cases e <;> simp [workerCalls, ih]

theorem runObservers_trace (listers : Listers) (observers : List observeConfigFunc) :
    ∀ (i : Nat) (m : Doc), updateCalls (runObservers listers observers i m).2 = 0 ∧
      workerCalls (runObservers listers observers i m).2 = [] := by
  induction observers with
  | nil => intro i m; simp [runObservers, updateCalls, workerCalls]
  | cons f rest ih =>
    intro i m
    simp only [runObservers]
    cases hf : f listers m with
    | error e => simp [updateCalls, workerCalls]
    | ok d => simpa [updateCalls, workerCalls] using ih (i + 1) d

theorem sync_workerCalls {ρ σ : Type} (c : ConfigObserver ρ σ) (s : σ) :
    workerCalls (sync c s).trace = [] := by
  have h := (runObservers_trace c.listers c.observers 0 []).2
  unfold sync
  split
  · rename_i err tr heq
    rw [heq] at h
    exact h
  · rename_i d tr heq
    rw [heq] at h
    split
    · simp [workerCalls_append, h, workerCalls]
    · simp only
      split
      · simp [workerCalls_append, h, workerCalls]
      · split <;> simp [workerCalls_append, h, workerCalls]

/-- Claim C3.  For every cache state and every persisted configuration object: if the
observer chain succeeds with a document, the fetch of the object succeeds, and the
document decoded from the object's stored observed config (a map, so without repeated
keys) is structurally equal to the computed one (the same key sets at every mapping,
sequences equal in order), then `sync` returns success and issues no update call; its
only call on the client is the get. -/
theorem sync_no_write_when_equal {ρ σ : Type} (n : Names) (listers : Listers)
    (client : OperatorConfigClient ρ σ) (jsonDecode : ρ → Option Doc) (s s1 : σ)
    (observedConfig currentConfig : Doc) (tr : List Event)
    (operatorConfig : OperatorConfig ρ)
    (hchain : runObservers listers (defaultObservers n) 0 [] = (.ok observedConfig, tr))
    (hget : client.Get "instance" s = (.ok operatorConfig, s1))
    (hdecode : decodeCurrent jsonDecode operatorConfig.ObservedConfig.Raw = some currentConfig)
    (hwf : Doc.wellFormed currentConfig = true)
    (heq : Value.StructEq (.map currentConfig) (.map observedConfig)) :
    (sync (NewConfigObserver n listers client jsonDecode) s).err = none ∧
      updateCalls (sync (NewConfigObserver n listers client jsonDecode) s).trace = 0 ∧
      (sync (NewConfigObserver n listers client jsonDecode) s).trace
        = tr ++ [.clientGet "instance"] := by
  have hde := DeepEqual_complete _ _ hwf (wellFormed_chain n listers observedConfig tr hchain) heq
  have htr : updateCalls tr = 0 := by
    have := (runObservers_trace listers (defaultObservers n) 0 []).1
    rw [hchain] at this
    exact this
  simp [sync, NewConfigObserver, hchain, hget, hdecode, hde, updateCalls_append, htr,
    updateCalls]

/-! ## Errors of the chain -/

theorem observeKubeAPIServerPublicInfo_error (n : Names) (listers : Listers) (m : Doc)
    (e : Err) (he : e.IsNotFound = false)
    (h : listers.configmapLister n.kubeAPIServerNamespaceName "public-info" = .error e) :
    observeKubeAPIServerPublicInfo n listers m = .error e := by
  simp [observeKubeAPIServerPublicInfo, h, he]

theorem observeKubeAPIServerPublicInfo_ok (n : Names) (listers : Listers) (m : Doc)
    (h : notFoundAtWorst (listers.configmapLister n.kubeAPIServerNamespaceName "public-info")) :
    ∃ d, observeKubeAPIServerPublicInfo n listers m = .ok d := by
  unfold observeKubeAPIServerPublicInfo
  cases hl : listers.configmapLister n.kubeAPIServerNamespaceName "public-info" with
  | error e => exact ⟨m, by simp [h e hl]⟩
  | ok info =>
    cases hk : info.Data.lookup "projectConfig.defaultNodeSelector" with
    | none => exact ⟨m, by simp [hk]⟩
    | some val =>
      exact ⟨afterCall m
        (SetNestedField m (.str val) ["projectConfig"] "defaultNodeSelector"), by simp only [hk]⟩

theorem observeEtcdEndpoints_error (n : Names) (listers : Listers) (m : Doc)
    (e : Err) (he : e.IsNotFound = false)
    (h : listers.endpointLister n.etcdNamespaceName "etcd" = .error e) :
    observeEtcdEndpoints n listers m = .error e := by
  simp [observeEtcdEndpoints, h, he]

theorem observeEtcdEndpoints_ok (n : Names) (listers : Listers) (m : Doc)
    (h : notFoundAtWorst (listers.endpointLister n.etcdNamespaceName "etcd")) :
    ∃ d, observeEtcdEndpoints n listers m = .ok d := by
  unfold observeEtcdEndpoints
  cases hl : listers.endpointLister n.etcdNamespaceName "etcd" with
  | error e => exact ⟨setEtcdURLs m [], by simp [h e hl]⟩
  | ok ep => exact ⟨setEtcdURLs m (etcdURLsOf ep []), rfl⟩

theorem observeInternalRegistryHostname_error (listers : Listers) (m : Doc)
    (e : Err) (he : e.IsNotFound = false)
    (h : listers.imageConfigLister "cluster" = .error e) :
    observeInternalRegistryHostname listers m = .error e := by
  simp [observeInternalRegistryHostname, h, he]

/-- Claim C5.  Let `e` be an error that is not of the not-found kind.  If the
public-info lookup fails with `e`, `sync` returns `e` having invoked the first
observer only; if that lookup is at worst not found and the etcd endpoints lookup
fails with `e`, `sync` returns `e` having invoked the first two observers; if both are
at worst not found and the image lookup fails with `e`, `sync` returns `e` having
invoked the three observers.  In each case no later observer is invoked, neither the
get nor the update call is issued, and the remote state is untouched. -/
theorem sync_aborts_on_lookup_error {ρ σ : Type} (n : Names) (listers : Listers)
    (client : OperatorConfigClient ρ σ) (jsonDecode : ρ → Option Doc) (s : σ) (e : Err)
    (he : e.IsNotFound = false) :
    (listers.configmapLister n.kubeAPIServerNamespaceName "public-info" = .error e →
      abortedIn (sync (NewConfigObserver n listers client jsonDecode) s) s e 0) ∧
    (notFoundAtWorst (listers.configmapLister n.kubeAPIServerNamespaceName "public-info") →
      listers.endpointLister n.etcdNamespaceName "etcd" = .error e →
      abortedIn (sync (NewConfigObserver n listers client jsonDecode) s) s e 1) ∧
    (notFoundAtWorst (listers.configmapLister n.kubeAPIServerNamespaceName "public-info") →
      notFoundAtWorst (listers.endpointLister n.etcdNamespaceName "etcd") →
      listers.imageConfigLister "cluster" = .error e →
      abortedIn (sync (NewConfigObserver n listers client jsonDecode) s) s e 2) := by
  refine ⟨?_, ?_, ?_⟩
  · intro h1
    have ha := observeKubeAPIServerPublicInfo_error n listers [] e he h1
    simp [abortedIn, sync, NewConfigObserver, defaultObservers, runObservers, ha,
      List.range, List.range.loop, getCalls, updateCalls]
  · intro h1 h2
    obtain ⟨d, ha⟩ := observeKubeAPIServerPublicInfo_ok n listers [] h1
    have hb := observeEtcdEndpoints_error n listers d e he h2
    simp [abortedIn, sync, NewConfigObserver, defaultObservers, runObservers, ha, hb,
      List.range, List.range.loop, getCalls, updateCalls]
  · intro h1 h2 h3
    obtain ⟨d, ha⟩ := observeKubeAPIServerPublicInfo_ok n listers [] h1
    obtain ⟨d2, hb⟩ := observeEtcdEndpoints_ok n listers d h2
    have hc := observeInternalRegistryHostname_error listers d2 e he h3
    simp [abortedIn, sync, NewConfigObserver, defaultObservers, runObservers, ha, hb, hc,
      List.range, List.range.loop, getCalls, updateCalls]

/-! ## The worker step -/

/-- Claim C8.  For every item dequeued while the queue is not shut down,
`processNextWorkItem` returns true, leaves the remote state that one call of `sync`
leaves, and makes exactly these calls, in order: the dequeue, the rate limiter's
`Accept`, one call of `sync` with the calls that `sync` makes, and then, when `sync`
succeeds, `Forget` of the item and `Done` of the item (no re-enqueue, no error
report), and, when `sync` fails, the report of the failure to the error sink,
`AddRateLimited` of the item and `Done` of the item (no `Forget`).  None of the calls
that `sync` makes is a call on the queue, the rate limiter or the error sink, so the
worker's own calls are exactly the ones listed. -/
theorem processNextWorkItem_calls {ρ σ : Type} (c : ConfigObserver ρ σ) (dsKey : String)
    (s : σ) :
    (processNextWorkItem c (dsKey, false) s).ret = true ∧
    (processNextWorkItem c (dsKey, false) s).store = (sync c s).store ∧
    ((sync c s).err = none →
      (processNextWorkItem c (dsKey, false) s).trace =
        [.queueGet, .rateLimiterAccept, .syncCalled] ++ (sync c s).trace ++
          [.queueForget dsKey, .queueDone dsKey] ∧
      workerCalls (processNextWorkItem c (dsKey, false) s).trace =
        [.queueGet, .rateLimiterAccept, .syncCalled, .queueForget dsKey, .queueDone dsKey]) ∧
    (∀ err, (sync c s).err = some err →
      (processNextWorkItem c (dsKey, false) s).trace =
        [.queueGet, .rateLimiterAccept, .syncCalled] ++ (sync c s).trace ++
          [.handleError (dsKey ++ " failed with : " ++ err.Error),
            .queueAddRateLimited dsKey, .queueDone dsKey] ∧
      workerCalls (processNextWorkItem c (dsKey, false) s).trace =
        [.queueGet, .rateLimiterAccept, .syncCalled,
          .handleError (dsKey ++ " failed with : " ++ err.Error),
          .queueAddRateLimited dsKey, .queueDone dsKey]) ∧
    workerCalls (sync c s).trace = [] := by
  have hw := sync_workerCalls c s
  refine ⟨?_, ?_, ?_, ?_, hw⟩
  · simp only [processNextWorkItem]
    cases (sync c s).err <;> simp
  · simp only [processNextWorkItem]
    cases (sync c s).err <;> simp
  · intro h
    simp [processNextWorkItem, h, workerCalls_append, workerCalls, hw]
  · intro err h
    simp [processNextWorkItem, h, workerCalls_append, workerCalls, hw]

/-! ## The namespace-filtered handler -/

/-- Claim C10, the code at the failing input.  On a payload that is not a namespace, the
add callback and the update callback of `namespaceEventHandler` add the work queue key
and then fault on the nil pointer, where the delete callback returns. -/
theorem namespace_handler_faults (n : Names) (kind : String) (new : Payload) :
    namespaceAddFunc n (.otherKind kind) = ⟨[.queueAdd n.workQueueKey], .nilDereference⟩ ∧
    namespaceUpdateFunc n (.otherKind kind) new
      = ⟨[.queueAdd n.workQueueKey], .nilDereference⟩ ∧
    (namespaceDeleteFunc n (.otherKind kind)).outcome = .returned := by
  refine ⟨rfl, rfl, rfl⟩

/-! ## Two passes -/

/-- Claim C1 at the record with the hostnames `etcd-0`, `etcd-1` and the suffix
`example.com`, on the empty document. -/
theorem observeEtcdEndpoints_urls_witness :
    ∃ returned, observeEtcdEndpoints exampleNames etcdCaches [] = .ok returned ∧
      nestedField returned ["storageConfig", "urls"] =
        some (.slice [.str "https://etcd-0.example.com:2379",
          .str "https://etcd-1.example.com:2379"]) :=
  observeEtcdEndpoints_urls exampleNames etcdCaches [] etcdRecord rfl
    ⟨⟨[⟨"etcd-0"⟩, ⟨"etcd-1"⟩]⟩, List.mem_singleton.mpr rfl, by simp⟩
    (by simp [getField])

/-- Claim C2 at a record whose only subset has no address. -/
theorem observeEtcdEndpoints_no_addresses_witness :
    observeEtcdEndpoints exampleNames emptyRecordCaches crowdedDocument = .ok crowdedDocument :=
  (observeEtcdEndpoints_no_addresses exampleNames emptyRecordCaches crowdedDocument emptyRecord
    rfl (by simp [emptyRecord])).1

/-- The document `reorderedDocument` is structurally equal to `computedDocument`, though
its keys are listed in another order. -/
theorem reordered_structEq :
    Value.StructEq (.map reorderedDocument) (.map computedDocument) := by
  show (∀ k, k ∈ keysOf computedDocument → k ∈ keysOf reorderedDocument) ∧
    StructEqFields reorderedDocument computedDocument
  refine ⟨?_, ⟨_, rfl, Value.structEq_refl _ (by decide)⟩,
    ⟨_, rfl, Value.structEq_refl _ (by decide)⟩, trivial⟩
  intro k hk
  simp only [keysOf, computedDocument, List.map_cons, List.map_nil, List.mem_cons,
    List.mem_singleton, List.not_mem_nil, or_false] at hk
  simp only [keysOf, reorderedDocument, List.map_cons, List.map_nil,
    List.mem_cons, List.mem_singleton, List.not_mem_nil, or_false]
  tauto

/-- Claim C3 at a stored document that lists the keys of the computed one in another
order. -/
theorem sync_no_write_when_equal_witness :
    (sync (NewConfigObserver exampleNames selectorCaches memoryClient some) reorderedStored).err
        = none ∧
      updateCalls
        (sync (NewConfigObserver exampleNames selectorCaches memoryClient some)
          reorderedStored).trace = 0 ∧
      (sync (NewConfigObserver exampleNames selectorCaches memoryClient some)
          reorderedStored).trace = fullChainTrace ++ [.clientGet "instance"] :=
  sync_no_write_when_equal exampleNames selectorCaches memoryClient some reorderedStored
    reorderedStored computedDocument reorderedDocument fullChainTrace reorderedStored
    rfl rfl rfl (by decide) reordered_structEq

/-- Claim C5 at a cache state whose endpoint lookup fails with an error that is not
not-found. -/
theorem sync_aborts_on_lookup_error_witness :
    abortedIn (sync (NewConfigObserver exampleNames brokenCaches memoryClient some) emptyStored)
      emptyStored (.other "cache unavailable") 1 :=
  (sync_aborts_on_lookup_error exampleNames brokenCaches memoryClient some emptyStored
    (.other "cache unavailable") rfl).2.1
    (by intro e h; cases h; rfl) rfl

/-- Claim C6 as amended, at a cache state without the endpoint-set record. -/
theorem observeEtcdEndpoints_not_found_tolerated_witness :
    observeEtcdEndpoints exampleNames absentCaches crowdedDocument = .ok crowdedDocument :=
  (observeEtcdEndpoints_not_found_tolerated exampleNames absentCaches crowdedDocument
    "endpoints \"etcd\" not found" rfl).1

/-- Claim C6 as stated fails.  The endpoint-set lookup fails with a not-found error,
and `observeEtcdEndpoints` returns the document and no error. -/
theorem observeEtcdEndpoints_not_found_counterexample :
    absentCaches.endpointLister exampleNames.etcdNamespaceName "etcd"
        = .error (.notFound "endpoints \"etcd\" not found") ∧
      observeEtcdEndpoints exampleNames absentCaches [] = .ok [] ∧
      ¬ ∃ err, observeEtcdEndpoints exampleNames absentCaches [] = .error err :=
  ⟨rfl, rfl, by
    intro h
    obtain ⟨err, h⟩ := h
    have h2 : observeEtcdEndpoints exampleNames absentCaches [] = .ok [] := rfl
    rw [h2] at h
    cases h⟩

/-- Claim C7 at a cache state without any record, and at one whose public-info config
map lacks the key. -/
theorem not_found_tolerated_witness :
    observeInternalRegistryHostname absentCaches crowdedDocument = .ok crowdedDocument ∧
      observeKubeAPIServerPublicInfo exampleNames absentCaches crowdedDocument
        = .ok crowdedDocument ∧
      observeKubeAPIServerPublicInfo exampleNames emptyRecordCaches crowdedDocument
        = .ok crowdedDocument :=
  ⟨(not_found_tolerated exampleNames absentCaches crowdedDocument).1
      "images \"cluster\" not found" rfl,
    (not_found_tolerated exampleNames absentCaches crowdedDocument).2.1
      "configmaps \"public-info\" not found" rfl,
    (not_found_tolerated exampleNames emptyRecordCaches crowdedDocument).2.2
      ⟨[("version", "1")]⟩ rfl (by decide)⟩

/-- Claim C8 at a pass that succeeds with a write, which advances the version of the
stored object, and at a pass that fails in the second observer. -/
theorem processNextWorkItem_calls_witness :
    ((processNextWorkItem
        (NewConfigObserver exampleNames etcdCaches memoryClient some) ("key", false)
        staleStored).store.ResourceVersion = 2 ∧
      (processNextWorkItem
        (NewConfigObserver exampleNames etcdCaches memoryClient some) ("key", false)
        staleStored).trace =
      [.queueGet, .rateLimiterAccept, .syncCalled,
        .observerCalled 0, .observerCalled 1, .observerCalled 2, .clientGet "instance",
        .clientUpdate (some [("storageConfig", .map [("urls",
          .slice [.str "https://etcd-0.example.com:2379",
            .str "https://etcd-1.example.com:2379"])])]),
        .queueForget "key", .queueDone "key"]) ∧
    (processNextWorkItem
        (NewConfigObserver exampleNames brokenCaches memoryClient some) ("key", false)
        emptyStored).trace =
      [.queueGet, .rateLimiterAccept, .syncCalled, .observerCalled 0, .observerCalled 1,
        .handleError "key failed with : cache unavailable",
        .queueAddRateLimited "key", .queueDone "key"] :=
  ⟨⟨(congrArg OperatorConfig.ResourceVersion
        (processNextWorkItem_calls
          (NewConfigObserver exampleNames etcdCaches memoryClient some)
          "key" staleStored).2.1).trans rfl,
      ((processNextWorkItem_calls
        (NewConfigObserver exampleNames etcdCaches memoryClient some)
        "key" staleStored).2.2.1 rfl).1.trans rfl⟩,
    ((processNextWorkItem_calls
      (NewConfigObserver exampleNames brokenCaches memoryClient some)
      "key" emptyStored).2.2.2.1 (.other "cache unavailable") rfl).1.trans rfl⟩

/-- Claim C9 at a document whose `projectConfig` holds a mapping with another key and
whose `storageConfig` holds a string. -/
theorem observers_keep_other_fields_witness :
    keepsOtherFields ["projectConfig", "defaultNodeSelector"] crowdedDocument
        [("projectConfig", .map [("other", .str "1"),
          ("defaultNodeSelector", .str "type=master")]), ("storageConfig", .str "x")] ∧
      keepsOtherFields ["storageConfig", "urls"] crowdedDocument crowdedDocument :=
  ⟨(observers_keep_other_fields exampleNames selectorCaches crowdedDocument).1 _ rfl,
    (observers_keep_other_fields exampleNames selectorCaches crowdedDocument).2.1 _ rfl⟩

end Operator
